import Mathlib

/-!
Verification development for the streaming VM executor
(`src/streaming-executor.ts`, `src/ts-parser.ts`, `src/types.ts`).

Source text is modelled as `List Char` (the JavaScript loop iterates the
stream character by character, so a list of characters is the natural
granularity).  External collaborators (the TypeScript parser behind
`parseStatement`, the Bun transpiler behind `transpile`, and the
`node:vm` script execution) are modelled as abstract deterministic
functions bundled into a `RunConfig`, exactly at the interface the
executor uses.  Everything the executor itself does - the per-character
boundary scan, the statement pipeline, timeout classification, binding
hoisting, error policy, and finalization - is embedded directly from the
source.
-/

/-- Text as a list of characters, the granularity of the streaming loop. -/
abbrev Str := List Char

/-- Model of the JavaScript trim operation used on the statement buffer:
whitespace removed from both ends. -/
def jsTrim (l : Str) : Str :=
  ((l.dropWhile Char.isWhitespace).reverse.dropWhile Char.isWhitespace).reverse

/-- The `type` field of an `ExecutionError` (`src/types.ts`). -/
inductive ExecutionErrorType where
  | parse
  | runtime
  | timeout
deriving DecidableEq, Repr

/-- Shape of a message field on a thrown object, as observed by
`formatErrorMessage`: either a string or some non-string value. -/
inductive MsgField where
  | strMsg (s : Str)
  | nonStr
deriving DecidableEq, Repr

/-- Model of a JavaScript value at the granularity the error handling of
the executor observes it: an `Error` instance (with its `message` and its
stringification), some other non-null object (with an optional `message`
field and its stringification), or a primitive or null value (with its
stringification). -/
inductive JSValue where
  | jsError (message : Str) (str : Str)
  | jsObject (message : Option MsgField) (str : Str)
  | jsPrim (str : Str)
deriving DecidableEq, Repr

/-- Model of `new Error(msg)` as created by the executor, together with
its JavaScript stringification. -/
def mkJsError (msg : Str) : JSValue :=
  JSValue.jsError msg
    (if msg = [] then ("Error").toList else ("Error: ").toList ++ msg)

/-- Embedding of `formatErrorMessage` (streaming-executor.ts, lines
461-472): an `Error` instance contributes its `message` directly; any
other non-null object with a non-empty string `message` contributes that
message; everything else is stringified. -/
def formatErrorMessage : JSValue → Str
  | JSValue.jsError m _ => m
  | JSValue.jsObject (some (MsgField.strMsg s)) str =>
      if s.length > 0 then s else str
  | JSValue.jsObject _ str => str
  | JSValue.jsPrim str => str

/-- ExecutionError record (`src/types.ts`). -/
structure ExecutionError where
  type : ExecutionErrorType
  thrown : JSValue
  message : Str
  line : Nat
deriving DecidableEq, Repr

/-- ExecutionEvent record (`src/types.ts`). -/
structure ExecutionEvent where
  statement : Str
  line : Nat
  logs : Str
  error : Option ExecutionError
deriving DecidableEq, Repr

/-- ExecutionResult record (`src/types.ts`). -/
structure ExecutionResult where
  logs : Str
  error : Option ExecutionError
deriving DecidableEq, Repr

/-- The `if (!finalError) finalError = error` update of the governing
error slot in `run`. -/
def setIfEmpty (cur : Option ExecutionError) (e : ExecutionError) :
    Option ExecutionError :=
  match cur with
  | none => some e
  | some c => some c

/-! ### The TypeScript parser model (`src/ts-parser.ts`) -/

/-- Binding name in the structural tree: an identifier, an object
destructuring pattern, or an array destructuring pattern whose elements
may be omitted (`ts.BindingName`, with elements collapsed to their
`name` fields). -/
inductive BindingName where
  | ident (name : Str)
  | objectPattern (elements : List BindingName)
  | arrayPattern (elements : List (Option BindingName))

/-- Top-level statement of a parsed source file, at the granularity
`extractBindingsFromAST` inspects it. -/
inductive TSStatement where
  | variableStatement (declarations : List BindingName)
  | functionDeclaration (name : Option Str)
  | classDeclaration (name : Option Str)
  | other

/-- Parsed source file: its list of top-level statements. -/
structure SourceFile where
  statements : List TSStatement

/-- Bindings record extracted per statement (`src/ts-parser.ts`).  The
field name `variables` is a reserved token in Lean, hence the quoted
identifier. -/
structure Bindings where
  «variables» : List Str
  functions : List Str
  classes : List Str
deriving DecidableEq, Repr

/-- Embedding of `extractFromBindingName` (ts-parser.ts, lines 211-227):
recursive walk over a binding pattern collecting identifier names,
skipping omitted array elements. -/
def extractFromBindingName : BindingName → List Str
  | BindingName.ident n => [n]
  | BindingName.objectPattern els =>
      (els.attach.map (fun x => extractFromBindingName x.1)).flatten
  | BindingName.arrayPattern els =>
      (els.attach.map (fun x =>
        match h : x.1 with
        | none => []
        | some b => extractFromBindingName b)).flatten
termination_by bn => sizeOf bn
decreasing_by
  · have := List.sizeOf_lt_of_mem x.2
    simp only [BindingName.objectPattern.sizeOf_spec]
    omega
  · have h1 := List.sizeOf_lt_of_mem x.2
    rw [h] at h1
    simp only [Option.some.sizeOf_spec] at h1
    simp only [BindingName.arrayPattern.sizeOf_spec]
    omega

/-- Body of the statement loop of `extractBindingsFromAST`: a variable
statement pushes the names of each of its declarations, a named function
declaration pushes its name, a named class declaration pushes its name,
and every other statement is skipped. -/
def pushBindings (b : Bindings) (st : TSStatement) : Bindings :=
  match st with
  | TSStatement.variableStatement decls =>
      { b with «variables» :=
          b.«variables» ++ (decls.map extractFromBindingName).flatten }
  | TSStatement.functionDeclaration (some n) =>
      { b with functions := b.functions ++ [n] }
  | TSStatement.classDeclaration (some n) =>
      { b with classes := b.classes ++ [n] }
  | _ => b

/-- Embedding of `extractBindingsFromAST` (ts-parser.ts, lines 191-209):
walk the top-level statements in order, pushing variable names from
declaration lists, function names, and class names onto the three
lists. -/
def extractBindingsFromAST (sourceFile : SourceFile) : Bindings :=
  sourceFile.statements.foldl pushBindings ⟨[], [], []⟩

/-! ### The statement pipeline (`src/streaming-executor.ts`) -/

/-- Persistent VM context: a mapping from names to values, where `V` is
the (abstract) type of JavaScript values stored in it. -/
abbrev Ctx (V : Type) := Str → Option V

/-- Assignment of one key in a map, modelling `obj[key] = value`. -/
def setKey {A : Type} [DecidableEq A] {B : Type} (c : A → B) (k : A) (v : B) :
    A → B :=
  fun k2 => if k2 = k then v else c k2

/-- Outcome of awaiting the promise returned by
`script.runInContext(this._context)` as raced in `withTimeout`: the
promise fulfilled with a bindings record (or with nothing), the promise
rejected with a thrown value, or the promise was still pending when the
per-statement timer fired. -/
inductive ScriptOutcome (V : Type) where
  | success (value : Option (Str → Option V))
  | thrown (e : JSValue)
  | pending

/-- The sentinel `new Error("Execution timeout")` created by the timer
inside `withTimeout`. -/
def timeoutSentinel : JSValue := mkJsError (("Execution timeout").toList)

/-- Embedding of `withTimeout` (streaming-executor.ts, lines 399-416):
`Promise.race` of the script promise against the timer.  A fulfilled
promise wins the race and is returned; a rejected promise rethrows its
value; if the promise is still pending when the timer fires, the race
rejects with the timeout sentinel. -/
def withTimeout {V : Type} : ScriptOutcome V → Except JSValue (Option (Str → Option V))
  | ScriptOutcome.success v => Except.ok v
  | ScriptOutcome.thrown e => Except.error e
  | ScriptOutcome.pending => Except.error timeoutSentinel

/-- The check `e instanceof Error && e.message === "Execution timeout"`
performed in the catch clause of `executeStatement`. -/
def isExecutorTimeoutShape : JSValue → Bool
  | JSValue.jsError m _ => m = ("Execution timeout").toList
  | _ => false

/-- Model of `allNames.join(", ")`. -/
def joinNamesWithComma : List Str → Str
  | [] => []
  | [n] => n
  | n :: rest => n ++ (", ").toList ++ joinNamesWithComma rest

/-- Concatenation `[...bindings.variables, ...bindings.functions,
...bindings.classes]` computed at the start of `executeStatement`. -/
def allNamesOf (b : Bindings) : List Str :=
  b.«variables» ++ b.functions ++ b.classes

/-- Embedding of the wrapping step of `executeStatement` (lines 342-350):
a declaration is wrapped in an async IIFE that returns a record of the
declared names, any other statement in a plain async IIFE. -/
def wrapCode (transpiled : Str) (allNames : List Str) : Str :=
  if allNames.length > 0 then
    ("(async () => \x7b ").toList ++ transpiled ++ ("; return \x7b ").toList
      ++ joinNamesWithComma allNames ++ (" \x7d; \x7d)()").toList
  else
    ("(async () => \x7b ").toList ++ transpiled ++ ("; \x7d)()").toList

/-- External collaborators of one executor instance, at the interface the
run loop uses them: the TypeScript parser behind `parseStatement` of
ts-parser.ts (an abstract deterministic completeness check returning the
structural tree when complete), the Bun transpiler behind the private
`transpile` method (abstract, returning transpiled code or an error
message), the `node:vm` script execution (abstract: given the context
and the wrapped script text, it yields the context after execution, the
settled outcome of the script promise raced against the timer, and the
console output captured by the per-statement sink), and the
`continueOnError` option fixed at construction.  The `jsx` flag is
absorbed into the parser and transpiler functions. -/
structure RunConfig (V : Type) where
  parseStatement : Str → Option SourceFile
  transpile : Str → Except Str Str
  runScript : Ctx V → Str → Ctx V × ScriptOutcome V × Str
  continueOnError : Bool

/-- Result of `executeStatement`: captured logs and the optional error. -/
structure StmtResult where
  logs : Str
  error : Option ExecutionError
deriving DecidableEq, Repr

/-- Embedding of `executeStatement` (streaming-executor.ts, lines
325-397): concatenate the declared names, wrap the transpiled code,
run the script raced against the timeout, hoist the returned bindings
into the context on success, and classify failures in the catch clause:
`timeout` when the caught value is an `Error` whose message equals
"Execution timeout", otherwise `runtime` with the thrown value kept
verbatim and the message derived by `formatErrorMessage`. -/
def executeStatement {V : Type} (cfg : RunConfig V) (ctx : Ctx V)
    (transpiled : Str) (bindings : Bindings) (line : Nat) :
    Ctx V × StmtResult :=
  let allNames := allNamesOf bindings
  let wrapped := wrapCode transpiled allNames
  let out := cfg.runScript ctx wrapped
  let ctx1 := out.1
  let logs := out.2.2
  match withTimeout out.2.1 with
  | Except.ok result =>
      let ctx2 :=
        if allNames.length > 0 then
          match result with
          | some record => allNames.foldl (fun c n => setKey c n (record n)) ctx1
          | none => ctx1
        else ctx1
      (ctx2, { logs := logs, error := none })
  | Except.error e =>
      if isExecutorTimeoutShape e then
        (ctx1, { logs := logs,
                 error := some ⟨ExecutionErrorType.timeout, e,
                                ("Execution timeout").toList, line⟩ })
      else
        (ctx1, { logs := logs,
                 error := some ⟨ExecutionErrorType.runtime, e,
                                formatErrorMessage e, line⟩ })

/-! ### The run controller (`src/streaming-executor.ts`, `run`) -/

/-- Mutable state of one background run: the statement buffer, the line
bookkeeping, the aggregated logs, the governing error slot, the events
pushed to the queue so far (in push order), the shared VM context, and
whether the early `return` on an error under the stop-on-error policy
has been taken (after which no further input is read). -/
structure RunState (V : Type) where
  buffer : Str
  lineNumber : Nat
  statementStartLine : Nat
  allLogs : Str
  finalError : Option ExecutionError
  events : List ExecutionEvent
  ctx : Ctx V
  stopped : Bool

/-- Embedding of the semicolon branch of the character loop of `run`
(lines 148-211): trim the buffer, attempt the completeness check, and on
a complete statement extract bindings, transpile, and either emit a
parse-error event (transpile failure) or execute the statement and emit
its event; the governing error slot is set only if empty; under the
default policy an error returns out of the loop, otherwise the buffer is
cleared and the next statement starts at the current line. -/
def tryBoundary {V : Type} (cfg : RunConfig V) (s : RunState V) : RunState V :=
  let trimmed := jsTrim s.buffer
  if trimmed = [] then s
  else
    match cfg.parseStatement trimmed with
    | none => s
    | some sourceFile =>
      let bindings := extractBindingsFromAST sourceFile
      match cfg.transpile trimmed with
      | Except.error msg =>
        let err : ExecutionError :=
          ⟨ExecutionErrorType.parse, mkJsError msg, msg, s.statementStartLine⟩
        let ev : ExecutionEvent := ⟨trimmed, s.statementStartLine, [], some err⟩
        if cfg.continueOnError then
          { s with finalError := setIfEmpty s.finalError err,
                   events := s.events ++ [ev],
                   buffer := [], statementStartLine := s.lineNumber }
        else
          { s with finalError := setIfEmpty s.finalError err,
                   events := s.events ++ [ev], stopped := true }
      | Except.ok code =>
        let r := executeStatement cfg s.ctx code bindings s.statementStartLine
        let ev : ExecutionEvent :=
          ⟨trimmed, s.statementStartLine, r.2.logs, r.2.error⟩
        match r.2.error with
        | some err =>
          if cfg.continueOnError then
            { s with ctx := r.1, allLogs := s.allLogs ++ r.2.logs,
                     events := s.events ++ [ev],
                     finalError := setIfEmpty s.finalError err,
                     buffer := [], statementStartLine := s.lineNumber }
          else
            { s with ctx := r.1, allLogs := s.allLogs ++ r.2.logs,
                     events := s.events ++ [ev],
                     finalError := setIfEmpty s.finalError err,
                     stopped := true }
        | none =>
          { s with ctx := r.1, allLogs := s.allLogs ++ r.2.logs,
                   events := s.events ++ [ev],
                   buffer := [], statementStartLine := s.lineNumber }

/-- Embedding of the body of the character loop of `run` (lines
144-221): once the early return has been taken the remaining input is
never read; otherwise the character is appended to the buffer, a
semicolon triggers the boundary attempt, and a newline advances the line
counter (and the statement start line when the buffer is blank). -/
def processChar {V : Type} (cfg : RunConfig V) (s : RunState V) (c : Char) :
    RunState V :=
  if s.stopped then s
  else
    let s1 := { s with buffer := s.buffer ++ [c] }
    let s2 := if c = ';' then tryBoundary cfg s1 else s1
    if c = '\n' then
      let s3 := { s2 with lineNumber := s2.lineNumber + 1 }
      if jsTrim s3.buffer = [] then
        { s3 with statementStartLine := s3.lineNumber }
      else s3
    else s2

/-- Embedding of the end-of-stream flush of `run` (lines 224-290): if a
non-empty trimmed buffer remains and the guard
`continueOnError || !finalError` passes, attempt one final completeness
check; a complete statement is transpiled and executed as the last
statement, while an incomplete one produces the terminal parse failure
with message "Incomplete statement". -/
def flushBuffer {V : Type} (cfg : RunConfig V) (s : RunState V) : RunState V :=
  let trimmed := jsTrim s.buffer
  if trimmed ≠ [] ∧ (cfg.continueOnError = true ∨ s.finalError = none) then
    match cfg.parseStatement trimmed with
    | some sourceFile =>
      let bindings := extractBindingsFromAST sourceFile
      match cfg.transpile trimmed with
      | Except.error msg =>
        let err : ExecutionError :=
          ⟨ExecutionErrorType.parse, mkJsError msg, msg, s.statementStartLine⟩
        { s with finalError := setIfEmpty s.finalError err,
                 events := s.events ++ [⟨trimmed, s.statementStartLine, [], some err⟩] }
      | Except.ok code =>
        let r := executeStatement cfg s.ctx code bindings s.statementStartLine
        let ev : ExecutionEvent :=
          ⟨trimmed, s.statementStartLine, r.2.logs, r.2.error⟩
        match r.2.error with
        | some err =>
          { s with ctx := r.1, allLogs := s.allLogs ++ r.2.logs,
                   events := s.events ++ [ev],
                   finalError := setIfEmpty s.finalError err }
        | none =>
          { s with ctx := r.1, allLogs := s.allLogs ++ r.2.logs,
                   events := s.events ++ [ev] }
    | none =>
      let err : ExecutionError :=
        ⟨ExecutionErrorType.parse, mkJsError (("Incomplete statement").toList),
         ("Incomplete statement").toList, s.statementStartLine⟩
      { s with finalError := setIfEmpty s.finalError err,
               events := s.events ++ [⟨trimmed, s.statementStartLine, [], some err⟩] }
  else s

/-- Initial run state (lines 126-141): buffer cleared, line counter and
statement start line reset to 1, aggregate logs and governing error
cleared; the VM context is the persistent one of the instance. -/
def initState {V : Type} (ctx : Ctx V) : RunState V :=
  ⟨[], 1, 1, [], none, [], ctx, false⟩

/-- Scan of a character sequence by the background task. -/
def scanChars {V : Type} (cfg : RunConfig V) (ctx : Ctx V) (l : Str) : RunState V :=
  l.foldl (processChar cfg) (initState ctx)

/-- Observable output of one run: the sequence of events pushed to the
event queue (in push order, the order the consumer receives them), the
terminal result resolved in the `finally` block, and the VM context
after the run. -/
structure RunOutput (V : Type) where
  events : List ExecutionEvent
  result : ExecutionResult
  ctx : Ctx V

/-- Embedding of the background task of `run` (lines 137-296): the
nested loop over the chunks of the stream and the characters of each
chunk, then (unless the early return was taken) the end-of-stream flush,
and finally the terminal result assembled from the aggregated logs and
the governing error. -/
def run {V : Type} (cfg : RunConfig V) (ctx : Ctx V) (chunks : List Str) :
    RunOutput V :=
  let s := chunks.foldl (fun acc chunk => chunk.foldl (processChar cfg) acc)
    (initState ctx)
  let s2 := if s.stopped then s else flushBuffer cfg s
  ⟨s2.events, ⟨s2.allLogs, s2.finalError⟩, s2.ctx⟩

/-- Embedding of the single-flight guard at the entry of `run` (lines
100-105): when `_running` is true the call throws synchronously
(modelled as the `Except.error` branch, carrying no events and touching
nothing); otherwise the run proceeds. -/
def runGuard {V : Type} (cfg : RunConfig V) (running : Bool) (ctx : Ctx V)
    (chunks : List Str) : Except Str (RunOutput V) :=
  if running then
    Except.error (("Cannot call run() while another run is in progress").toList)
  else
    Except.ok (run cfg ctx chunks)

/-! ### The constructor (`src/streaming-executor.ts`, lines 40-79) -/

/-- Entry stored in the VM context map during construction: either one
of the globals installed by `initializeBuiltins` or a value from the
user-supplied `options.context` record. -/
inductive CtxEntry (V : Type) where
  | builtinGlobal
  | userValue (v : V)
deriving DecidableEq, Repr

/-- Keys written by `initializeBuiltins` (lines 418-433), in assignment
order; the final `console` assignment comes from `setContextConsole`. -/
def builtinKeys : List Str :=
  [("globalThis").toList, ("setTimeout").toList, ("clearTimeout").toList,
   ("setInterval").toList, ("clearInterval").toList,
   ("queueMicrotask").toList, ("console").toList]

/-- Embedding of `initializeBuiltins` on the context map: each built-in
key is assigned in order.  The self-referential value stored under
`globalThis` and the concrete timer and console objects are collapsed to
the `builtinGlobal` marker, which is all the overwrite claim needs. -/
def initializeBuiltins {V : Type} (ctx : Str → Option (CtxEntry V)) :
    Str → Option (CtxEntry V) :=
  builtinKeys.foldl (fun c k => setKey c k (some CtxEntry.builtinGlobal)) ctx

/-- Embedding of the user-context loop of the constructor (lines 74-78):
`Object.entries(options.context)` assigned one by one, in order. -/
def applyUserContext {V : Type} (ctx : Str → Option (CtxEntry V))
    (entries : List (Str × V)) : Str → Option (CtxEntry V) :=
  entries.foldl (fun c kv => setKey c kv.1 (some (CtxEntry.userValue kv.2))) ctx

/-- Context produced by the constructor: built-ins installed first on
the fresh empty context, then the user entries applied on top. -/
def constructorContext {V : Type} (entries : List (Str × V)) :
    Str → Option (CtxEntry V) :=
  applyUserContext (initializeBuiltins (fun _ => none)) entries

/-- Value of the last entry of the list carrying the given key, the one
that survives the assignment loop. -/
def lastUserValue {V : Type} (entries : List (Str × V)) (k : Str) : Option V :=
  entries.foldl (fun acc kv => if kv.1 = k then some kv.2 else acc) none

/-! ### Helper lemmas: how one step of the run loop changes the state -/

/-- Folding step for the governing error slot: every event carrying an
error passes through the set-only-if-empty update. -/
def errStep (acc : Option ExecutionError) (ev : ExecutionEvent) :
    Option ExecutionError :=
  match ev.error with
  | some e => setIfEmpty acc e
  | none => acc

/-- One state evolves from another by appending a batch of events,
appending exactly the logs of those events to the aggregate log, and
threading the governing error slot through the set-only-if-empty update
of each appended event. -/
def StateExtends {V : Type} (s s2 : RunState V) : Prop :=
  ∃ tail, s2.events = s.events ++ tail ∧
    s2.allLogs = s.allLogs ++ (tail.map (fun ev => ev.logs)).flatten ∧
    s2.finalError = tail.foldl errStep s.finalError

/-! ### Characterization of the binding extraction -/

/-- Variable names declared by a statement list, in declaration order,
with repeats kept. -/
def declaredVariablesOf (stmts : List TSStatement) : List Str :=
  (stmts.map (fun st =>
    match st with
    | TSStatement.variableStatement decls =>
        (decls.map extractFromBindingName).flatten
    | _ => [])).flatten

/-- Function names declared by a statement list, in declaration order. -/
def declaredFunctionsOf (stmts : List TSStatement) : List Str :=
  stmts.filterMap (fun st =>
    match st with
    | TSStatement.functionDeclaration (some n) => some n
    | _ => none)

/-- Class names declared by a statement list, in declaration order. -/
def declaredClassesOf (stmts : List TSStatement) : List Str :=
  stmts.filterMap (fun st =>
    match st with
    | TSStatement.classDeclaration (some n) => some n
    | _ => none)

/-! ### Concrete instantiations of the external collaborators -/

/-- Empty VM context over the trivial value type. -/
def emptyCtx : Ctx Unit := fun _ => none

/-- Analyzer stub that judges every candidate complete with a tree
containing one non-declaration statement. -/
def parseAlwaysComplete : Str → Option SourceFile :=
  fun _ => some ⟨[TSStatement.other]⟩

/-- Analyzer stub that judges every candidate incomplete. -/
def parseNeverComplete : Str → Option SourceFile := fun _ => none

/-- A user-thrown error value whose message happens to equal the text of
the timeout sentinel. -/
def userTimeoutShapedError : JSValue :=
  JSValue.jsError (("Execution timeout").toList)
    (("Error: Execution timeout").toList)

/-- An Error instance carrying the empty message; its stringification is
the JavaScript one, `"Error"`. -/
def emptyMessageError : JSValue :=
  JSValue.jsError [] (("Error").toList)

/-- Executor collaborators where every script execution rejects with the
user-thrown timeout-shaped error. -/
def cfgThrowTimeoutShaped : RunConfig Unit :=
  { parseStatement := parseAlwaysComplete,
    transpile := fun t => Except.ok t,
    runScript := fun ctx _ => (ctx, ScriptOutcome.thrown userTimeoutShapedError, []),
    continueOnError := false }

/-- Executor collaborators where every script execution rejects with a
primitive value. -/
def cfgThrowPrim : RunConfig Unit :=
  { parseStatement := parseAlwaysComplete,
    transpile := fun t => Except.ok t,
    runScript := fun ctx _ =>
      (ctx, ScriptOutcome.thrown (JSValue.jsPrim (("boom").toList)), []),
    continueOnError := false }

/-- Executor collaborators where every script execution rejects with an
empty-message Error instance. -/
def cfgThrowEmptyMessage : RunConfig Unit :=
  { parseStatement := parseAlwaysComplete,
    transpile := fun t => Except.ok t,
    runScript := fun ctx _ => (ctx, ScriptOutcome.thrown emptyMessageError, []),
    continueOnError := false }

/-- Executor collaborators where every statement succeeds and logs one
character. -/
def cfgLogsOnly : RunConfig Unit :=
  { parseStatement := parseAlwaysComplete,
    transpile := fun t => Except.ok t,
    runScript := fun ctx _ => (ctx, ScriptOutcome.success none, ("x").toList),
    continueOnError := false }

/-- Executor collaborators where every statement throws, under the
continue-on-error policy. -/
def cfgContinueThrow : RunConfig Unit :=
  { parseStatement := parseAlwaysComplete,
    transpile := fun t => Except.ok t,
    runScript := fun ctx _ =>
      (ctx, ScriptOutcome.thrown (JSValue.jsPrim (("boom").toList)), []),
    continueOnError := true }

/-- Executor collaborators where every statement throws, under the
default stop-on-error policy. -/
def cfgStopThrow : RunConfig Unit :=
  { parseStatement := parseAlwaysComplete,
    transpile := fun t => Except.ok t,
    runScript := fun ctx _ =>
      (ctx, ScriptOutcome.thrown (JSValue.jsPrim (("boom").toList)), []),
    continueOnError := false }

/-- Executor collaborators whose analyzer never judges the buffer
complete. -/
def cfgIncomplete : RunConfig Unit :=
  { parseStatement := parseNeverComplete,
    transpile := fun t => Except.ok t,
    runScript := fun ctx _ => (ctx, ScriptOutcome.success none, []),
    continueOnError := false }

/-- Message derivation exactly as the spec sentence behind C2 words it:
use the message field of the thrown value when it is an object exposing
one and that message is non-empty text, otherwise stringify the thrown
value.  An Error instance is an object exposing a string message, so the
non-empty test applies to it as well under this reading. -/
def claimedErrorMessage : JSValue → Str
  | JSValue.jsError m str => if m.length > 0 then m else str
  | JSValue.jsObject (some (MsgField.strMsg s)) str =>
      if s.length > 0 then s else str
  | JSValue.jsObject _ str => str
  | JSValue.jsPrim str => str

/-- Message derivation as the amended C2 claim words it: an Error
instance yields its message verbatim, even when empty; any other object
exposing a non-empty string message yields that message; everything else
yields the stringification. -/
def amendedErrorMessage : JSValue → Str
  | JSValue.jsError m _ => m
  | JSValue.jsObject (some (MsgField.strMsg s)) str =>
      if s.length > 0 then s else str
  | JSValue.jsObject _ str => str
  | JSValue.jsPrim str => str

/-- Structural tree of the complete statement `var x = 1, x = 2;`: one
top-level variable statement whose declaration list binds the same
identifier twice. -/
def dupVarSourceFile : SourceFile :=
  ⟨[TSStatement.variableStatement
      [BindingName.ident (("x").toList), BindingName.ident (("x").toList)]]⟩

theorem errStep_some (e : ExecutionError) (ev : ExecutionEvent) :
    errStep (some e) ev = some e := by
  unfold errStep
  cases ev.error <;> rfl

theorem foldl_errStep_some (tail : List ExecutionEvent) (e : ExecutionError) :
    tail.foldl errStep (some e) = some e := by
  induction tail with
  | nil => rfl
  | cons ev rest ih => rw [List.foldl_cons, errStep_some]; exact ih

theorem foldl_errStep_none (tail : List ExecutionEvent) :
    tail.foldl errStep none =
      (tail.filterMap (fun ev => ev.error)).head? := by
  induction tail with
  | nil => rfl
  | cons ev rest ih =>
      rw [List.foldl_cons, List.filterMap_cons]
      cases h : ev.error with
      | none => simpa [errStep, h] using ih
      | some e => simp [errStep, h, setIfEmpty, foldl_errStep_some]

/-- Either the semicolon attempt leaves the observable fields untouched
(blank buffer or incomplete statement), or it appends exactly one event,
appends the logs of that event to the aggregate, threads the governing
error slot through the set-only-if-empty update, and, under the default
policy, takes the early return whenever the event carries an error. -/
theorem tryBoundary_fields {V : Type} (cfg : RunConfig V) (s : RunState V) :
    ((tryBoundary cfg s).events = s.events ∧
     (tryBoundary cfg s).allLogs = s.allLogs ∧
     (tryBoundary cfg s).finalError = s.finalError ∧
     (tryBoundary cfg s).stopped = s.stopped ∧
     (tryBoundary cfg s).ctx = s.ctx) ∨
    (∃ ev : ExecutionEvent,
      (tryBoundary cfg s).events = s.events ++ [ev] ∧
      (tryBoundary cfg s).allLogs = s.allLogs ++ ev.logs ∧
      (tryBoundary cfg s).finalError = errStep s.finalError ev ∧
      (cfg.continueOnError = false → ev.error.isSome = true →
        (tryBoundary cfg s).stopped = true)) := by
  simp only [tryBoundary]
  repeat' split
  all_goals
    first
      | exact Or.inl ⟨rfl, rfl, rfl, rfl, rfl⟩
      | (refine Or.inr ⟨_, rfl, ?_, ?_, ?_⟩ <;> simp_all [errStep, setIfEmpty])

theorem stopped_processChar {V : Type} (cfg : RunConfig V) (s : RunState V)
    (c : Char) (h : s.stopped = true) : processChar cfg s c = s := by
  unfold processChar
  rw [if_pos h]

/-- Field characterization of one character step: either the observable
fields (events, aggregate log, governing error, stop flag) are
untouched, or exactly one event is appended with the bookkeeping of
`tryBoundary_fields`. -/
theorem processChar_fields {V : Type} (cfg : RunConfig V) (s : RunState V)
    (c : Char) :
    ((processChar cfg s c).events = s.events ∧
     (processChar cfg s c).allLogs = s.allLogs ∧
     (processChar cfg s c).finalError = s.finalError ∧
     (processChar cfg s c).stopped = s.stopped) ∨
    (∃ ev : ExecutionEvent,
      (processChar cfg s c).events = s.events ++ [ev] ∧
      (processChar cfg s c).allLogs = s.allLogs ++ ev.logs ∧
      (processChar cfg s c).finalError = errStep s.finalError ev ∧
      (cfg.continueOnError = false → ev.error.isSome = true →
        (processChar cfg s c).stopped = true)) := by
  by_cases hstop : s.stopped = true
  · rw [stopped_processChar cfg s c hstop]
    exact Or.inl ⟨rfl, rfl, rfl, rfl⟩
  · simp only [processChar, if_neg hstop]
    by_cases hsemi : c = ';'
    · subst hsemi
      rw [if_pos (rfl : (';' : Char) = ';'),
        if_neg (show ¬((';' : Char) = '\n') by decide)]
      rcases tryBoundary_fields cfg { s with buffer := s.buffer ++ [';'] } with
        ⟨h1, h2, h3, h4, _⟩ | ⟨ev, h1, h2, h3, h4⟩
      · exact Or.inl ⟨h1, h2, h3, h4⟩
      · exact Or.inr ⟨ev, h1, h2, h3, h4⟩
    · rw [if_neg hsemi]
      by_cases hnl : c = '\n'
      · subst hnl
        rw [if_pos (rfl : ('\n' : Char) = '\n')]
        split
        · exact Or.inl ⟨rfl, rfl, rfl, rfl⟩
        · exact Or.inl ⟨rfl, rfl, rfl, rfl⟩
      · rw [if_neg hnl]
        exact Or.inl ⟨rfl, rfl, rfl, rfl⟩

/-- Field characterization of the end-of-stream flush: untouched, or
exactly one event appended with the same bookkeeping. -/
theorem flushBuffer_fields {V : Type} (cfg : RunConfig V) (s : RunState V) :
    ((flushBuffer cfg s).events = s.events ∧
     (flushBuffer cfg s).allLogs = s.allLogs ∧
     (flushBuffer cfg s).finalError = s.finalError) ∨
    (∃ ev : ExecutionEvent,
      (flushBuffer cfg s).events = s.events ++ [ev] ∧
      (flushBuffer cfg s).allLogs = s.allLogs ++ ev.logs ∧
      (flushBuffer cfg s).finalError = errStep s.finalError ev) := by
  simp only [flushBuffer]
  repeat' split
  all_goals
    first
      | exact Or.inl ⟨rfl, rfl, rfl⟩
      | (refine Or.inr ⟨_, rfl, ?_, ?_⟩ <;> simp_all [errStep, setIfEmpty])

theorem stopped_foldl {V : Type} (cfg : RunConfig V) (l : Str) :
    ∀ s : RunState V, s.stopped = true → l.foldl (processChar cfg) s = s := by
  induction l with
  | nil => intro s _; rfl
  | cons c rest ih =>
      intro s h
      rw [List.foldl_cons, stopped_processChar cfg s c h]
      exact ih s h

theorem stateExtends_refl {V : Type} (s : RunState V) : StateExtends s s :=
  ⟨[], by simp, by simp, rfl⟩

theorem stateExtends_trans {V : Type} {s1 s2 s3 : RunState V}
    (h12 : StateExtends s1 s2) (h23 : StateExtends s2 s3) :
    StateExtends s1 s3 := by
  obtain ⟨t1, he1, hl1, hf1⟩ := h12
  obtain ⟨t2, he2, hl2, hf2⟩ := h23
  refine ⟨t1 ++ t2, ?_, ?_, ?_⟩
  · rw [he2, he1, List.append_assoc]
  · rw [hl2, hl1, List.map_append, List.flatten_append, List.append_assoc]
  · rw [hf2, hf1, List.foldl_append]

theorem processChar_extends {V : Type} (cfg : RunConfig V) (s : RunState V)
    (c : Char) : StateExtends s (processChar cfg s c) := by
  rcases processChar_fields cfg s c with ⟨h1, h2, h3, _⟩ | ⟨ev, h1, h2, h3, _⟩
  · exact ⟨[], by simp [h1], by simp [h2], h3⟩
  · exact ⟨[ev], by simp [h1], by simp [h2], h3⟩

theorem flushBuffer_extends {V : Type} (cfg : RunConfig V) (s : RunState V) :
    StateExtends s (flushBuffer cfg s) := by
  rcases flushBuffer_fields cfg s with ⟨h1, h2, h3⟩ | ⟨ev, h1, h2, h3⟩
  · exact ⟨[], by simp [h1], by simp [h2], h3⟩
  · exact ⟨[ev], by simp [h1], by simp [h2], h3⟩

theorem foldl_processChar_extends {V : Type} (cfg : RunConfig V) (l : Str) :
    ∀ s : RunState V, StateExtends s (l.foldl (processChar cfg) s) := by
  induction l with
  | nil => exact fun s => stateExtends_refl s
  | cons c rest ih =>
      intro s
      exact stateExtends_trans (processChar_extends cfg s c) (ih _)

/-- Preservation of the governing-error invariant: the slot always holds
the error of the first event that carries one. -/
theorem errInv_extends {V : Type} {s s2 : RunState V}
    (hx : StateExtends s s2)
    (h : s.finalError = (s.events.filterMap (fun ev => ev.error)).head?) :
    s2.finalError = (s2.events.filterMap (fun ev => ev.error)).head? := by
  obtain ⟨t, he, _, hf⟩ := hx
  rw [hf, he, List.filterMap_append, List.head?_append, h]
  cases hh : (s.events.filterMap (fun ev => ev.error)).head? with
  | none => rw [foldl_errStep_none, Option.none_or]
  | some e => rw [foldl_errStep_some, Option.or_some]

/-- Preservation of the log invariant: the aggregate log is the
concatenation of the per-event logs, in event order. -/
theorem logsInv_extends {V : Type} {s s2 : RunState V}
    (hx : StateExtends s s2)
    (h : s.allLogs = (s.events.map (fun ev => ev.logs)).flatten) :
    s2.allLogs = (s2.events.map (fun ev => ev.logs)).flatten := by
  obtain ⟨t, he, hl, _⟩ := hx
  rw [hl, he, h, List.map_append, List.flatten_append]

/-- The nested chunk-and-character loop of `run` is the scan of the
flattened stream. -/
theorem run_eq_flatten {V : Type} (cfg : RunConfig V) (ctx : Ctx V)
    (chunks : List Str) :
    run cfg ctx chunks =
      (let s := scanChars cfg ctx chunks.flatten
       let s2 := if s.stopped then s else flushBuffer cfg s
       RunOutput.mk s2.events ⟨s2.allLogs, s2.finalError⟩ s2.ctx) := by
  unfold run scanChars
  rw [List.foldl_flatten]

/-- The final run state extends the initial one and determines the
observable output of the run. -/
theorem run_output {V : Type} (cfg : RunConfig V) (ctx : Ctx V)
    (chunks : List Str) :
    ∃ s2 : RunState V, StateExtends (initState ctx) s2 ∧
      run cfg ctx chunks = ⟨s2.events, ⟨s2.allLogs, s2.finalError⟩, s2.ctx⟩ := by
  rw [run_eq_flatten]
  by_cases h : (scanChars cfg ctx chunks.flatten).stopped = true
  · refine ⟨scanChars cfg ctx chunks.flatten,
      foldl_processChar_extends cfg chunks.flatten (initState ctx), ?_⟩
    simp only [if_pos h]
  · refine ⟨flushBuffer cfg (scanChars cfg ctx chunks.flatten),
      stateExtends_trans
        (foldl_processChar_extends cfg chunks.flatten (initState ctx))
        (flushBuffer_extends cfg _), ?_⟩
    simp only [if_neg h]

/-- The terminal result carries the error of the first erroring event. -/
theorem run_result_error {V : Type} (cfg : RunConfig V) (ctx : Ctx V)
    (chunks : List Str) :
    (run cfg ctx chunks).result.error =
      ((run cfg ctx chunks).events.filterMap (fun ev => ev.error)).head? := by
  obtain ⟨s2, hx, hout⟩ := run_output cfg ctx chunks
  rw [hout]
  exact errInv_extends hx (by simp [initState])

/-- The terminal result carries the concatenation of per-event logs. -/
theorem run_result_logs {V : Type} (cfg : RunConfig V) (ctx : Ctx V)
    (chunks : List Str) :
    (run cfg ctx chunks).result.logs =
      ((run cfg ctx chunks).events.map (fun ev => ev.logs)).flatten := by
  obtain ⟨s2, hx, hout⟩ := run_output cfg ctx chunks
  rw [hout]
  exact logsInv_extends hx (by simp [initState])

/-! ### Stop-on-error lemmas -/

theorem stopInv_processChar {V : Type} (cfg : RunConfig V)
    (hc : cfg.continueOnError = false) (s : RunState V) (c : Char)
    (h : s.events.any (fun ev => ev.error.isSome) = true → s.stopped = true) :
    (processChar cfg s c).events.any (fun ev => ev.error.isSome) = true →
      (processChar cfg s c).stopped = true := by
  intro hany
  by_cases hstop : s.stopped = true
  · rw [stopped_processChar cfg s c hstop]
    exact hstop
  · rcases processChar_fields cfg s c with ⟨he, _, _, hs⟩ | ⟨ev, he, _, _, himp⟩
    · rw [he] at hany
      exact absurd (h hany) hstop
    · rw [he, List.any_append] at hany
      cases hse : s.events.any (fun ev => ev.error.isSome) with
      | true => exact absurd (h hse) hstop
      | false =>
          rw [hse] at hany
          simp only [Bool.false_or, List.any_cons, List.any_nil,
            Bool.or_false] at hany
          exact himp hc hany

theorem stopInv_foldl {V : Type} (cfg : RunConfig V)
    (hc : cfg.continueOnError = false) (l : Str) :
    ∀ s : RunState V,
      (s.events.any (fun ev => ev.error.isSome) = true → s.stopped = true) →
      (l.foldl (processChar cfg) s).events.any (fun ev => ev.error.isSome) = true →
      (l.foldl (processChar cfg) s).stopped = true := by
  induction l with
  | nil => exact fun s h => h
  | cons c rest ih =>
      intro s h
      rw [List.foldl_cons]
      exact ih _ (stopInv_processChar cfg hc s c h)

/-- Under the default policy, a scan whose event list contains an error
has taken the early return. -/
theorem scan_stop {V : Type} (cfg : RunConfig V)
    (hc : cfg.continueOnError = false) (ctx : Ctx V) (l : Str)
    (herr : (scanChars cfg ctx l).events.any (fun ev => ev.error.isSome) = true) :
    (scanChars cfg ctx l).stopped = true :=
  stopInv_foldl cfg hc l (initState ctx)
    (fun h => by simp [initState] at h) herr

theorem scan_append_stopped {V : Type} (cfg : RunConfig V) (ctx : Ctx V)
    (l1 l2 : Str) (h : (scanChars cfg ctx l1).stopped = true) :
    scanChars cfg ctx (l1 ++ l2) = scanChars cfg ctx l1 := by
  unfold scanChars
  rw [List.foldl_append]
  exact stopped_foldl cfg l2 _ h

theorem run_of_scan_stopped {V : Type} (cfg : RunConfig V) (ctx : Ctx V)
    (chunks : List Str)
    (h : (scanChars cfg ctx chunks.flatten).stopped = true) :
    run cfg ctx chunks =
      ⟨(scanChars cfg ctx chunks.flatten).events,
       ⟨(scanChars cfg ctx chunks.flatten).allLogs,
        (scanChars cfg ctx chunks.flatten).finalError⟩,
       (scanChars cfg ctx chunks.flatten).ctx⟩ := by
  rw [run_eq_flatten]
  simp only [if_pos h]

theorem pushBindings_foldl (stmts : List TSStatement) :
    ∀ b : Bindings,
      stmts.foldl pushBindings b =
        ⟨b.«variables» ++ declaredVariablesOf stmts,
         b.functions ++ declaredFunctionsOf stmts,
         b.classes ++ declaredClassesOf stmts⟩ := by
  induction stmts with
  | nil =>
      intro b
      simp [declaredVariablesOf, declaredFunctionsOf, declaredClassesOf]
  | cons st rest ih =>
      intro b
      rw [List.foldl_cons, ih]
      cases st with
      | variableStatement decls =>
          simp [pushBindings, declaredVariablesOf, declaredFunctionsOf,
            declaredClassesOf, List.append_assoc]
      | functionDeclaration name =>
          cases name <;>
            simp [pushBindings, declaredVariablesOf, declaredFunctionsOf,
              declaredClassesOf, List.append_assoc]
      | classDeclaration name =>
          cases name <;>
            simp [pushBindings, declaredVariablesOf, declaredFunctionsOf,
              declaredClassesOf, List.append_assoc]
      | other =>
          simp [pushBindings, declaredVariablesOf, declaredFunctionsOf,
            declaredClassesOf]

/-! ### Lookup lemma for the constructor context -/

theorem lastUserValue_acc {V : Type} (rest : List (Str × V)) :
    ∀ (a : Option V) (k : Str),
      rest.foldl (fun acc kv => if kv.1 = k then some kv.2 else acc) a =
        match lastUserValue rest k with
        | some v => some v
        | none => a := by
  induction rest with
  | nil => intro a k; rfl
  | cons kv rest ih =>
      intro a k
      rw [List.foldl_cons, ih]
      conv_rhs => rw [lastUserValue, List.foldl_cons]
      rw [show rest.foldl (fun acc kv => if kv.1 = k then some kv.2 else acc)
            (if kv.1 = k then some kv.2 else none) =
          match lastUserValue rest k with
          | some v => some v
          | none => (if kv.1 = k then some kv.2 else none) from ih _ k]
      cases h : lastUserValue rest k with
      | none =>
          simp only [h]
          by_cases hk : kv.1 = k <;> simp [hk]
      | some v => simp [h]

theorem applyUserContext_lookup {V : Type} (entries : List (Str × V)) :
    ∀ (ctx : Str → Option (CtxEntry V)) (k : Str),
      applyUserContext ctx entries k =
        match lastUserValue entries k with
        | some v => some (CtxEntry.userValue v)
        | none => ctx k := by
  induction entries with
  | nil => intro ctx k; rfl
  | cons kv rest ih =>
      intro ctx k
      have ih2 := ih (setKey ctx kv.1 (some (CtxEntry.userValue kv.2))) k
      unfold applyUserContext at ih2 ⊢
      rw [List.foldl_cons, ih2]
      conv_rhs => rw [lastUserValue, List.foldl_cons, lastUserValue_acc]
      cases h : lastUserValue rest k with
      | some v => simp [h]
      | none =>
          simp only [h]
          by_cases hk : kv.1 = k
          · simp [setKey, hk]
          · have hk2 : ¬(k = kv.1) := fun hkk => hk hkk.symm
            simp [setKey, hk, hk2]

/-! ### Shared facts about the catch clause of executeStatement -/

theorem executeStatement_error_cases {V : Type} (cfg : RunConfig V)
    (ctx : Ctx V) (code : Str) (b : Bindings) (line : Nat) (e : JSValue)
    (h : withTimeout (cfg.runScript ctx (wrapCode code (allNamesOf b))).2.1 =
      Except.error e) :
    (executeStatement cfg ctx code b line).2.error =
      some (if isExecutorTimeoutShape e then
              ⟨ExecutionErrorType.timeout, e, ("Execution timeout").toList, line⟩
            else
              ⟨ExecutionErrorType.runtime, e, formatErrorMessage e, line⟩) := by
  simp only [executeStatement]
  rw [h]
  by_cases hs : isExecutorTimeoutShape e = true
  · simp only [if_pos hs]
  · simp only [if_neg hs]

theorem withTimeout_pending {V : Type} :
    withTimeout (ScriptOutcome.pending : ScriptOutcome V) =
      Except.error timeoutSentinel := rfl

theorem formatErrorMessage_eq_amended (v : JSValue) :
    formatErrorMessage v = amendedErrorMessage v := by
  cases v with
  | jsError m str => rfl
  | jsObject msg str =>
      cases msg with
      | none => rfl
      | some f => cases f <;> rfl
  | jsPrim str => rfl

/-! ### Claim theorems -/

/-- C1 (counterexample): the claim says a user-thrown Error whose
message happens to equal "Execution timeout" is classified `runtime`.
On the code it is classified `timeout`: the catch clause only checks
`e instanceof Error && e.message === "Execution timeout"`, so a script
that rejects with such a value (outcome `thrown`, not the pending race
lost to the timer) still produces a timeout-typed error. -/
theorem c1_counterexample :
    (cfgThrowTimeoutShaped.runScript emptyCtx
        (wrapCode [] (allNamesOf ⟨[], [], []⟩))).2.1 =
      ScriptOutcome.thrown userTimeoutShapedError ∧
    (executeStatement cfgThrowTimeoutShaped emptyCtx [] ⟨[], [], []⟩ 1).2.error =
      some ⟨ExecutionErrorType.timeout, userTimeoutShapedError,
            ("Execution timeout").toList, 1⟩ := by
  exact ⟨rfl, by decide⟩

/-- C1 (amended): for every statement whose execution fails, the
resulting error has type `timeout` exactly when the caught value is an
Error instance whose message equals "Execution timeout" - which the
timeout sentinel created by the per-statement timer always is, but which
a user-thrown value can also be - and otherwise type `runtime`; in
either case the thrown value is preserved verbatim in the `thrown`
field. -/
theorem c1_amended {V : Type} (cfg : RunConfig V) (ctx : Ctx V) (code : Str)
    (b : Bindings) (line : Nat) (e : JSValue)
    (h : withTimeout (cfg.runScript ctx (wrapCode code (allNamesOf b))).2.1 =
      Except.error e) :
    (executeStatement cfg ctx code b line).2.error =
      some (if isExecutorTimeoutShape e then
              ⟨ExecutionErrorType.timeout, e, ("Execution timeout").toList, line⟩
            else
              ⟨ExecutionErrorType.runtime, e, formatErrorMessage e, line⟩) ∧
    ((cfg.runScript ctx (wrapCode code (allNamesOf b))).2.1 =
        ScriptOutcome.pending → isExecutorTimeoutShape e = true) := by
  constructor
  · exact executeStatement_error_cases cfg ctx code b line e h
  · intro hp
    rw [hp, withTimeout_pending] at h
    injection h with h2
    rw [← h2]
    decide

/-- C1 (witness): the amended claim applied to a concrete executor
whose script rejects with a primitive value. -/
theorem c1_amended_witness :
    (withTimeout (cfgThrowPrim.runScript emptyCtx
        (wrapCode [] (allNamesOf ⟨[], [], []⟩))).2.1 =
      Except.error (JSValue.jsPrim (("boom").toList))) ∧
    (executeStatement cfgThrowPrim emptyCtx [] ⟨[], [], []⟩ 1).2.error =
      some (if isExecutorTimeoutShape (JSValue.jsPrim (("boom").toList)) then
              ⟨ExecutionErrorType.timeout, JSValue.jsPrim (("boom").toList),
               ("Execution timeout").toList, 1⟩
            else
              ⟨ExecutionErrorType.runtime, JSValue.jsPrim (("boom").toList),
               formatErrorMessage (JSValue.jsPrim (("boom").toList)), 1⟩) :=
  ⟨rfl, (c1_amended cfgThrowPrim emptyCtx [] ⟨[], [], []⟩ 1
      (JSValue.jsPrim (("boom").toList)) rfl).1⟩

/-- C2 (counterexample): the claim says an Error instance with empty
message yields the stringified value.  On the code, `formatErrorMessage`
returns `error.message` for every Error instance without the non-empty
test, so a thrown empty-message Error produces the empty message, not
its stringification "Error". -/
theorem c2_counterexample :
    (executeStatement cfgThrowEmptyMessage emptyCtx [] ⟨[], [], []⟩ 1).2.error =
      some ⟨ExecutionErrorType.runtime, emptyMessageError, [], 1⟩ ∧
    claimedErrorMessage emptyMessageError = ("Error").toList ∧
    ([] : Str) ≠ ("Error").toList := by
  exact ⟨by decide, by decide, by decide⟩

/-- C2 (amended): for every statement that fails at runtime with a
non-timeout-shaped thrown value, the error message of the event follows
the amended rule: an Error instance contributes its message verbatim,
even when empty; any other object exposing a non-empty string message
contributes that message; everything else is stringified. -/
theorem c2_amended {V : Type} (cfg : RunConfig V) (ctx : Ctx V) (code : Str)
    (b : Bindings) (line : Nat) (e : JSValue)
    (hthrow : (cfg.runScript ctx (wrapCode code (allNamesOf b))).2.1 =
      ScriptOutcome.thrown e)
    (hshape : isExecutorTimeoutShape e = false) :
    (executeStatement cfg ctx code b line).2.error =
      some ⟨ExecutionErrorType.runtime, e, amendedErrorMessage e, line⟩ := by
  have h : withTimeout (cfg.runScript ctx (wrapCode code (allNamesOf b))).2.1 =
      Except.error e := by
    rw [hthrow]
    rfl
  rw [executeStatement_error_cases cfg ctx code b line e h,
    if_neg (by rw [hshape]; exact Bool.false_ne_true),
    formatErrorMessage_eq_amended]

/-- C2 (witness): the amended message rule applied to the concrete
empty-message Error, yielding the empty message. -/
theorem c2_amended_witness :
    ((cfgThrowEmptyMessage.runScript emptyCtx
        (wrapCode [] (allNamesOf ⟨[], [], []⟩))).2.1 =
      ScriptOutcome.thrown emptyMessageError) ∧
    isExecutorTimeoutShape emptyMessageError = false ∧
    (executeStatement cfgThrowEmptyMessage emptyCtx [] ⟨[], [], []⟩ 1).2.error =
      some ⟨ExecutionErrorType.runtime, emptyMessageError,
            amendedErrorMessage emptyMessageError, 1⟩ :=
  ⟨rfl, by decide,
    c2_amended cfgThrowEmptyMessage emptyCtx [] ⟨[], [], []⟩ 1
      emptyMessageError rfl (by decide)⟩

/-- C3 (counterexample): the claim says the extracted binding lists
contain no duplicate names, duplicates being impossible by construction.
On the code there is no deduplication: the tree of the complete
statement `var x = 1, x = 2;` yields the variable list `["x", "x"]`. -/
theorem c3_counterexample :
    (extractBindingsFromAST dupVarSourceFile).«variables» =
      [("x").toList, ("x").toList] ∧
    ¬ List.Nodup ((extractBindingsFromAST dupVarSourceFile).«variables» ++
        (extractBindingsFromAST dupVarSourceFile).functions ++
        (extractBindingsFromAST dupVarSourceFile).classes) := by
  have hv : (extractBindingsFromAST dupVarSourceFile).«variables» =
      [("x").toList, ("x").toList] := by
    simp [dupVarSourceFile, extractBindingsFromAST, pushBindings,
      extractFromBindingName]
  have hf : (extractBindingsFromAST dupVarSourceFile).functions = [] := by
    simp [dupVarSourceFile, extractBindingsFromAST, pushBindings]
  have hc : (extractBindingsFromAST dupVarSourceFile).classes = [] := by
    simp [dupVarSourceFile, extractBindingsFromAST, pushBindings]
  refine ⟨hv, ?_⟩
  rw [hv, hf, hc]
  decide

/-- C3 (amended): the extracted binding lists contain the declared
names in declaration order, with repeats kept: the variable list is the
concatenation of the names of each variable declaration in order, and
the function and class lists collect the named declarations in order;
no deduplication is performed, so duplicates are possible. -/
theorem c3_amended (sf : SourceFile) :
    extractBindingsFromAST sf =
      ⟨declaredVariablesOf sf.statements, declaredFunctionsOf sf.statements,
       declaredClassesOf sf.statements⟩ := by
  unfold extractBindingsFromAST
  rw [pushBindings_foldl]
  simp

/-- C4: for every fixed source text and every two chunkings of it,
the run produces identical event sequences and identical terminal
results - the loop processes the stream character by character, so only
the flattened text matters. -/
theorem c4_chunking {V : Type} (cfg : RunConfig V) (ctx : Ctx V)
    (chunks1 chunks2 : List Str)
    (h : chunks1.flatten = chunks2.flatten) :
    (run cfg ctx chunks1).events = (run cfg ctx chunks2).events ∧
    (run cfg ctx chunks1).result = (run cfg ctx chunks2).result := by
  have he : run cfg ctx chunks1 = run cfg ctx chunks2 := by
    rw [run_eq_flatten, run_eq_flatten, h]
  rw [he]
  exact ⟨rfl, rfl⟩

/-- C4 (witness): whole-text versus character-by-character chunking of
the same source produce the same events. -/
theorem c4_witness :
    (([("a;b;").toList] : List Str).flatten =
      ([("a").toList, (";").toList, ("b").toList, (";").toList] : List Str).flatten) ∧
    (run cfgLogsOnly emptyCtx [("a;b;").toList]).events =
      (run cfgLogsOnly emptyCtx
        [("a").toList, (";").toList, ("b").toList, (";").toList]).events :=
  ⟨by decide, (c4_chunking cfgLogsOnly emptyCtx _ _ (by decide)).1⟩

/-- C5: under continue-on-error, when at least two events carry errors,
the terminal result carries exactly the first of them, while every
erroring event keeps its own error in the event list. -/
theorem c5_first_error_governs {V : Type} (cfg : RunConfig V) (ctx : Ctx V)
    (chunks : List Str) (hc : cfg.continueOnError = true)
    (e1 e2 : ExecutionError) (rest : List ExecutionError)
    (h : (run cfg ctx chunks).events.filterMap (fun ev => ev.error) =
      e1 :: e2 :: rest) :
    (run cfg ctx chunks).result.error = some e1 := by
  rw [run_result_error, h]
  rfl

/-- C5 (witness): a two-statement source where both statements throw,
under continue-on-error; the terminal error is the first one. -/
theorem c5_witness :
    cfgContinueThrow.continueOnError = true ∧
    (run cfgContinueThrow emptyCtx [("a;b;").toList]).events.filterMap
        (fun ev => ev.error) =
      [⟨ExecutionErrorType.runtime, JSValue.jsPrim (("boom").toList),
        ("boom").toList, 1⟩,
       ⟨ExecutionErrorType.runtime, JSValue.jsPrim (("boom").toList),
        ("boom").toList, 1⟩] ∧
    (run cfgContinueThrow emptyCtx [("a;b;").toList]).result.error =
      some ⟨ExecutionErrorType.runtime, JSValue.jsPrim (("boom").toList),
            ("boom").toList, 1⟩ :=
  ⟨rfl, by decide,
    c5_first_error_governs cfgContinueThrow emptyCtx [("a;b;").toList] rfl
      ⟨ExecutionErrorType.runtime, JSValue.jsPrim (("boom").toList),
       ("boom").toList, 1⟩
      ⟨ExecutionErrorType.runtime, JSValue.jsPrim (("boom").toList),
       ("boom").toList, 1⟩
      [] (by decide)⟩

/-- C6: under the default stop-on-error policy, once the events of some
scanned prefix contain an error, the rest of the input contributes
nothing: the run has exactly the events of that prefix, the VM context
of that prefix (no later binding is hoisted), and a terminal result
assembled from that prefix alone - the remaining input is not read. -/
theorem c6_stop_on_error {V : Type} (cfg : RunConfig V) (ctx : Ctx V)
    (chunks : List Str) (l1 l2 : Str)
    (hc : cfg.continueOnError = false)
    (hsplit : chunks.flatten = l1 ++ l2)
    (herr : (scanChars cfg ctx l1).events.any (fun ev => ev.error.isSome) = true) :
    (run cfg ctx chunks).events = (scanChars cfg ctx l1).events ∧
    (run cfg ctx chunks).ctx = (scanChars cfg ctx l1).ctx ∧
    (run cfg ctx chunks).result =
      ⟨(scanChars cfg ctx l1).allLogs, (scanChars cfg ctx l1).finalError⟩ := by
  have hstop := scan_stop cfg hc ctx l1 herr
  have hs : scanChars cfg ctx chunks.flatten = scanChars cfg ctx l1 := by
    rw [hsplit]
    exact scan_append_stopped cfg ctx l1 l2 hstop
  have hstop2 : (scanChars cfg ctx chunks.flatten).stopped = true := by
    rw [hs]
    exact hstop
  have hrun := run_of_scan_stopped cfg ctx chunks hstop2
  rw [hrun, hs]
  exact ⟨rfl, rfl, rfl⟩

/-- C6 (witness): a two-statement source whose first statement throws,
under the default policy; only the first event exists. -/
theorem c6_witness :
    (([("a;b;").toList] : List Str).flatten = ("a;").toList ++ ("b;").toList) ∧
    ((scanChars cfgStopThrow emptyCtx (("a;").toList)).events.any
      (fun ev => ev.error.isSome) = true) ∧
    (run cfgStopThrow emptyCtx [("a;b;").toList]).events =
      (scanChars cfgStopThrow emptyCtx (("a;").toList)).events :=
  ⟨by decide, by decide,
    (c6_stop_on_error cfgStopThrow emptyCtx [("a;b;").toList]
      (("a;").toList) (("b;").toList) rfl (by decide) (by decide)).1⟩

/-- C7: when the stream ends un-stopped with a non-empty trimmed
residual buffer that the analyzer judges incomplete (and the flush guard
passes), exactly one event is appended for that residual text, with a
parse-typed error carrying the message "Incomplete statement", empty
logs, and the statement start line; when no earlier error exists this
error becomes the governing error of the terminal result. -/
theorem c7_incomplete_flush {V : Type} (cfg : RunConfig V) (ctx : Ctx V)
    (chunks : List Str)
    (hstop : (scanChars cfg ctx chunks.flatten).stopped = false)
    (hne : jsTrim (scanChars cfg ctx chunks.flatten).buffer ≠ [])
    (hguard : cfg.continueOnError = true ∨
      (scanChars cfg ctx chunks.flatten).finalError = none)
    (hinc : cfg.parseStatement
      (jsTrim (scanChars cfg ctx chunks.flatten).buffer) = none) :
    (run cfg ctx chunks).events =
      (scanChars cfg ctx chunks.flatten).events ++
        [⟨jsTrim (scanChars cfg ctx chunks.flatten).buffer,
          (scanChars cfg ctx chunks.flatten).statementStartLine, [],
          some ⟨ExecutionErrorType.parse,
                mkJsError (("Incomplete statement").toList),
                ("Incomplete statement").toList,
                (scanChars cfg ctx chunks.flatten).statementStartLine⟩⟩] ∧
    ((scanChars cfg ctx chunks.flatten).finalError = none →
      (run cfg ctx chunks).result.error =
        some ⟨ExecutionErrorType.parse,
              mkJsError (("Incomplete statement").toList),
              ("Incomplete statement").toList,
              (scanChars cfg ctx chunks.flatten).statementStartLine⟩) := by
  have hns : ¬((scanChars cfg ctx chunks.flatten).stopped = true) := by
    rw [hstop]
    exact Bool.false_ne_true
  have hflush : flushBuffer cfg (scanChars cfg ctx chunks.flatten) =
      { scanChars cfg ctx chunks.flatten with
        finalError := setIfEmpty (scanChars cfg ctx chunks.flatten).finalError
          ⟨ExecutionErrorType.parse, mkJsError (("Incomplete statement").toList),
           ("Incomplete statement").toList,
           (scanChars cfg ctx chunks.flatten).statementStartLine⟩,
        events := (scanChars cfg ctx chunks.flatten).events ++
          [⟨jsTrim (scanChars cfg ctx chunks.flatten).buffer,
            (scanChars cfg ctx chunks.flatten).statementStartLine, [],
            some ⟨ExecutionErrorType.parse,
                  mkJsError (("Incomplete statement").toList),
                  ("Incomplete statement").toList,
                  (scanChars cfg ctx chunks.flatten).statementStartLine⟩⟩] } := by
    simp only [flushBuffer]
    rw [if_pos ⟨hne, hguard⟩, hinc]
  rw [run_eq_flatten]
  simp only [if_neg hns]
  constructor
  · rw [hflush]
  · intro hfe
    simp only [hflush, hfe]
    rfl

/-- C7 (witness): a stream ending mid-expression under an analyzer that
judges the residual incomplete yields the single incomplete-statement
event. -/
theorem c7_witness :
    ((scanChars cfgIncomplete emptyCtx
        ([("const x = ").toList] : List Str).flatten).stopped = false) ∧
    (run cfgIncomplete emptyCtx [("const x = ").toList]).events =
      (scanChars cfgIncomplete emptyCtx
          ([("const x = ").toList] : List Str).flatten).events ++
        [⟨jsTrim (scanChars cfgIncomplete emptyCtx
            ([("const x = ").toList] : List Str).flatten).buffer,
          (scanChars cfgIncomplete emptyCtx
            ([("const x = ").toList] : List Str).flatten).statementStartLine, [],
          some ⟨ExecutionErrorType.parse,
                mkJsError (("Incomplete statement").toList),
                ("Incomplete statement").toList,
                (scanChars cfgIncomplete emptyCtx
                  ([("const x = ").toList] : List Str).flatten).statementStartLine⟩⟩] :=
  ⟨by decide,
    (c7_incomplete_flush cfgIncomplete emptyCtx [("const x = ").toList]
      (by decide) (by decide) (Or.inr (by decide)) rfl).1⟩

/-- C8: for runs whose events all succeed, with at least two of them,
the terminal logs equal the concatenation of the per-event logs in event
order, and events are emitted in source order: the events present after
scanning any prefix of the source form a prefix of the final event
sequence. -/
theorem c8_order_and_logs {V : Type} (cfg : RunConfig V) (ctx : Ctx V)
    (chunks : List Str)
    (hne : ∀ ev ∈ (run cfg ctx chunks).events, ev.error = none)
    (hlen : 2 ≤ (run cfg ctx chunks).events.length) :
    (run cfg ctx chunks).result.logs =
      ((run cfg ctx chunks).events.map (fun ev => ev.logs)).flatten ∧
    (∀ l1 l2 : Str, chunks.flatten = l1 ++ l2 →
      ∃ tail, (run cfg ctx chunks).events =
        (scanChars cfg ctx l1).events ++ tail) := by
  refine ⟨run_result_logs cfg ctx chunks, ?_⟩
  intro l1 l2 hsplit
  have hscan : scanChars cfg ctx chunks.flatten =
      l2.foldl (processChar cfg) (scanChars cfg ctx l1) := by
    rw [hsplit]
    unfold scanChars
    rw [List.foldl_append]
  obtain ⟨t1, he1, _, _⟩ := foldl_processChar_extends cfg l2 (scanChars cfg ctx l1)
  rw [run_eq_flatten]
  by_cases hstop : (scanChars cfg ctx chunks.flatten).stopped = true
  · simp only [if_pos hstop]
    refine ⟨t1, ?_⟩
    rw [hscan]
    exact he1
  · simp only [if_neg hstop]
    obtain ⟨t2, he2, _, _⟩ :=
      flushBuffer_extends cfg (scanChars cfg ctx chunks.flatten)
    refine ⟨t1 ++ t2, ?_⟩
    rw [he2, hscan, he1, List.append_assoc]

/-- C8 (witness): a two-statement error-free source; the terminal logs
are the two per-event logs concatenated. -/
theorem c8_witness :
    (∀ ev ∈ (run cfgLogsOnly emptyCtx [("a;b;").toList]).events,
      ev.error = none) ∧
    2 ≤ (run cfgLogsOnly emptyCtx [("a;b;").toList]).events.length ∧
    (run cfgLogsOnly emptyCtx [("a;b;").toList]).result.logs =
      ((run cfgLogsOnly emptyCtx [("a;b;").toList]).events.map
        (fun ev => ev.logs)).flatten :=
  ⟨by decide, by decide,
    (c8_order_and_logs cfgLogsOnly emptyCtx [("a;b;").toList]
      (by decide) (by decide)).1⟩

/-- C9: invoking `run` while the running flag is set fails with the
invocation error raised synchronously to the caller - the `Except.error`
branch of the guard, which creates no run, no events, and touches
nothing - rather than being folded into an `ExecutionEvent`. -/
theorem c9_guard {V : Type} (cfg : RunConfig V) (running : Bool)
    (ctx : Ctx V) (chunks : List Str) (h : running = true) :
    runGuard cfg running ctx chunks =
      Except.error (("Cannot call run() while another run is in progress").toList) := by
  unfold runGuard
  rw [if_pos h]

/-- C9 (witness): the guard firing on a concrete executor. -/
theorem c9_witness :
    (true = true) ∧
    runGuard cfgLogsOnly true emptyCtx [] =
      Except.error (("Cannot call run() while another run is in progress").toList) :=
  ⟨rfl, c9_guard cfgLogsOnly true emptyCtx [] rfl⟩

/-- C10: the constructor applies the user-supplied context entries after
installing the built-in globals, so for every key of the user record -
in particular one colliding with a built-in global such as `console` -
the surviving user value (the last entry for that key) overwrites the
built-in in the VM context. -/
theorem c10_user_overrides_builtins {V : Type} (entries : List (Str × V))
    (k : Str) (v : V) (hcollide : k ∈ builtinKeys)
    (hlast : lastUserValue entries k = some v) :
    constructorContext entries k = some (CtxEntry.userValue v) := by
  unfold constructorContext
  rw [applyUserContext_lookup, hlast]

/-- C10 (witness): a user entry under the key `console` overwrites the
built-in console. -/
theorem c10_witness :
    (("console").toList ∈ builtinKeys) ∧
    lastUserValue ([((("console").toList), 0)] : List (Str × Nat))
      (("console").toList) = some 0 ∧
    constructorContext ([((("console").toList), 0)] : List (Str × Nat))
      (("console").toList) = some (CtxEntry.userValue 0) :=
  ⟨by decide, by decide,
    c10_user_overrides_builtins [((("console").toList), 0)]
      (("console").toList) 0 (by decide) (by decide)⟩
